import Mathlib

/- Verification of the content-fetch-and-normalize pipeline of news_agent.py:
   fetch_smart_content (content-type classifier, PDF path, primary article
   extractor cascade, BeautifulSoup fallback extractor), clean_filename, and
   the per-URL logic of fetch_mode. Text values of the source language are
   modelled as lists of characters; external effects (the HTTP GET, the
   newspaper3k extractor, the PDF parser, the HTML parser) are modelled as
   explicit inputs describing their outcomes. -/

/-- Character-list model of source-language strings. -/
abbrev Str := List Char

/-- Shorthand turning a Lean string literal into the character-list model. -/
def str (s : String) : Str := s.data

/-- Whitespace characters recognised by the strip method of the source
    language (ASCII range; the source method also strips some Unicode
    whitespace, which no claim depends on). -/
def pyIsSpace (c : Char) : Bool :=
  c = ' ' || c = '\t' || c = '\n' || c = '\r' || c = '\x0b' || c = '\x0c'

/-- Model of str.rstrip: remove trailing whitespace. -/
def rstripL (l : Str) : Str := (l.reverse.dropWhile pyIsSpace).reverse

/-- Model of str.strip: remove leading and trailing whitespace. -/
def stripL (l : Str) : Str := rstripL (l.dropWhile pyIsSpace)

/-- Prepend a character to the first fragment of a split result. -/
def consHead (a : Char) : List Str → List Str
  | [] => [[a]]
  | f :: fs => (a :: f) :: fs

/-- Model of str.splitlines restricted to the ASCII line boundaries
    newline, carriage return (and the two-character sequence), vertical tab
    and form feed; a trailing boundary produces no extra empty line. -/
def splitlinesL : Str → List Str
  | [] => []
  | '\r' :: '\n' :: rest => [] :: splitlinesL rest
  | c :: rest =>
    if c = '\n' || c = '\r' || c = '\x0b' || c = '\x0c' then [] :: splitlinesL rest
    else consHead c (splitlinesL rest)

/-- Model of line.split with separator two spaces: split at each
    non-overlapping occurrence of two consecutive spaces, left to right. -/
def splitTwoSp : Str → List Str
  | [] => [[]]
  | ' ' :: ' ' :: rest => [] :: splitTwoSp rest
  | c :: rest => consHead c (splitTwoSp rest)

mutual
/-- Modelled from the spec: splitting a line on maximal runs of two or more
    spaces (the spec description of the fallback whitespace normalization);
    this operation is not itself in src, which splits on exact two-space
    occurrences instead. -/
def splitRuns : Str → List Str
  | [] => [[]]
  | ' ' :: ' ' :: rest => [] :: splitRunsSkip rest
  | c :: rest => consHead c (splitRuns rest)

/-- Helper of splitRuns: consume the remaining spaces of the current run. -/
def splitRunsSkip : Str → List Str
  | [] => [[]]
  | ' ' :: rest => splitRunsSkip rest
  | c :: rest => consHead c (splitRuns rest)
end

/-- Strip each fragment and drop the empty ones. -/
def tidyFrags (xs : List Str) : List Str :=
  (xs.map stripL).filter (fun c => !c.isEmpty)

/-- Whitespace normalization of the fallback extractor (news_agent.py lines
    89 to 91): strip each line, split each stripped line on two-space
    occurrences, strip each fragment, and join the non-empty fragments with
    single newlines. -/
def cleanTextL (t : Str) : Str :=
  let lines := (splitlinesL t).map stripL
  let chunks := lines.flatMap (fun line => (splitTwoSp line).map stripL)
  List.intercalate (str "\n") (chunks.filter (fun c => !c.isEmpty))

/-- Modelled from the spec: the whitespace normalization exactly as the spec
    words it, with no per-fragment stripping: trim each line, split each
    trimmed line on runs of two or more spaces, discard empty fragments,
    rejoin with single newlines. -/
def cleanTextSpecL (t : Str) : Str :=
  List.intercalate (str "\n")
    ((((splitlinesL t).map stripL).flatMap splitRuns).filter (fun c => !c.isEmpty))

/-- Amended description of the normalization: as the spec words it, plus
    stripping each fragment after splitting on runs of spaces. -/
def cleanTextSpecTrimL (t : Str) : Str :=
  List.intercalate (str "\n")
    ((((splitlinesL t).map stripL).flatMap (fun line => (splitRuns line).map stripL)).filter
      (fun c => !c.isEmpty))

/-- Model of the containment test of the source language (the in operator on
    text): the pattern occurs as a contiguous substring. -/
def containsSub (pat : Str) : Str → Bool
  | [] => pat.isEmpty
  | c :: rest => pat.isPrefixOf (c :: rest) || containsSub pat rest

/-- Model of str.lower restricted to ASCII letters. -/
def toLowerL (l : Str) : Str := l.map Char.toLower

mutual
/-- Model of a parsed HTML tree node, as built by the HTML parser that the
    fallback extractor uses: either a text node or an element with a tag
    name and a list of children. -/
inductive Html where
  | text : Str → Html
  | elem : Str → HtmlList → Html

/-- List of sibling HTML nodes; a whole document is the list of top-level
    nodes (the children of the soup object). -/
inductive HtmlList where
  | nil : HtmlList
  | cons : Html → HtmlList → HtmlList
end

/-- Build a sibling list from a Lean list of nodes. -/
def HtmlList.ofList : List Html → HtmlList
  | [] => .nil
  | h :: t => .cons h (HtmlList.ofList t)

/-- Element node with children given as a Lean list. -/
def el (tag : String) (cs : List Html) : Html := .elem (str tag) (.ofList cs)

/-- Text node from a Lean string literal. -/
def tx (s : String) : Html := .text (str s)

/-- Tag names whose elements the fallback extractor removes
    (news_agent.py line 83). -/
def bannedTag (t : Str) : Bool :=
  t = str "script" || t = str "style" || t = str "nav" ||
    t = str "footer" || t = str "header"

/-- Model of the extract loop of the fallback extractor (news_agent.py lines
    83 to 84): remove every element whose tag is in the removal list,
    together with its whole subtree. -/
def pruneL : HtmlList → HtmlList
  | .nil => .nil
  | .cons (.text s) rest => .cons (.text s) (pruneL rest)
  | .cons (.elem tag cs) rest =>
    if bannedTag tag then pruneL rest
    else .cons (.elem tag (pruneL cs)) (pruneL rest)

/-- Model of soup.get_text(): the concatenation of all text nodes of the
    document in document order, with no separator. -/
def getTextL : HtmlList → Str
  | .nil => []
  | .cons (.text s) rest => s ++ getTextL rest
  | .cons (.elem _ cs) rest => getTextL cs ++ getTextL rest

/-- Text of the document that lies outside every removed-tag subtree: the
    spec notion of the text not originating from a script, style, nav,
    footer or header subtree. -/
def visibleTextL : HtmlList → Str
  | .nil => []
  | .cons (.text s) rest => s ++ visibleTextL rest
  | .cons (.elem tag cs) rest =>
    (if bannedTag tag then [] else visibleTextL cs) ++ visibleTextL rest

/-- Model of soup.title: the first element named title, in document
    preorder. -/
def findTitleL : HtmlList → Option Html
  | .nil => none
  | .cons (.text _) rest => findTitleL rest
  | .cons (.elem tag cs) rest =>
    if tag = str "title" then some (.elem tag cs)
    else
      match findTitleL cs with
      | some n => some n
      | none => findTitleL rest

/-- Model of the .string property of the HTML library: a text node is its
    own string; an element with exactly one child has the string of that
    child; any other element (no children, or more than one) has none. -/
def tagString : Html → Option Str
  | .text s => some s
  | .elem _ (.cons c .nil) => tagString c
  | .elem _ _ => none

/-- Model of the fallback generic extractor (news_agent.py lines 80 to 94):
    remove the banned tags, take the remaining text, normalize whitespace,
    and resolve the title from the first remaining title element via its
    .string property, with the placeholder Web_Capture when no title element
    remains. -/
def fallbackExtract (doc : HtmlList) : Option Str × Str :=
  let pruned := pruneL doc
  let clean_text := cleanTextL (getTextL pruned)
  let title : Option Str :=
    match findTitleL pruned with
    | some n => tagString n
    | none => some (str "Web_Capture")
  (title, clean_text)

/-- The example document of the spec: the parse tree of the example HTML
    page with title T, a nav containing X and a paragraph, under a parser
    that inserts no implicit elements. -/
def exampleHtmlDoc : HtmlList :=
  .ofList [el "html" [el "title" [tx "T"],
    el "body" [el "nav" [tx "X"], el "p" [tx "Real content here."]]]]

/-- Outcome of parsing the downloaded bytes as a PDF document: the page
    texts in document order, and the metadata title (absent when the
    document metadata or its title field is missing). -/
structure PdfDoc where
  pages : List Str
  metaTitle : Option Str

/-- Environment of one fetch call: the outcome of every external effect the
    code can invoke on the downloaded response. contentType is the raw
    Content-Type header; pdf is the outcome of parsing the body as a PDF
    (none models a parse exception); html is the parse of the body as an
    HTML tree (that parser accepts any input); primary is the outcome of the
    primary article extractor on the body (none models an exception, some
    gives its title and text). -/
structure Response where
  contentType : Str
  pdf : Option PdfDoc
  html : HtmlList
  primary : Option (Str × Str)

/-- Acceptance threshold of the primary article extractor
    (news_agent.py line 73). -/
def ARTICLE_ACCEPT_THRESHOLD : Nat := 300

/-- Minimum usable text length checked by fetch_mode
    (news_agent.py line 143). -/
def MIN_CONTENT_LENGTH : Nat := 100

/-- Content-type classifier (news_agent.py lines 44 and 47): PDF when the
    lowercased URL string ends with .pdf or the lowercased Content-Type
    header contains application/pdf; HTML otherwise. -/
def classifyIsPdf (url contentTypeHeader : Str) : Bool :=
  (str ".pdf").isSuffixOf (toLowerL url) ||
    containsSub (str "application/pdf") (toLowerL contentTypeHeader)

/-- Modelled from the spec: claim C5 speaks of the URL path, and path
    extraction is not in src, so the path is modelled as the URL text before
    the query or fragment delimiter. -/
def specUrlPath (url : Str) : Str :=
  url.takeWhile (fun c => !(c = '?' || c = '#'))

/-- Modelled from the spec: the classifier as claim C5 words it, testing the
    URL path rather than the whole URL string. -/
def classifierSpecC5 (url contentTypeHeader : Str) : Bool :=
  (str ".pdf").isSuffixOf (toLowerL (specUrlPath url)) ||
    containsSub (str "application/pdf") (toLowerL contentTypeHeader)

/-- Text assembled by the PDF path (news_agent.py lines 52 to 54): a fold
    appending each page text followed by a newline. -/
def pdfText (doc : PdfDoc) : Str :=
  doc.pages.foldl (fun acc p => acc ++ p ++ str "\n") []

/-- Title resolved by the PDF path (news_agent.py lines 57 to 59): the
    metadata title when present and truthy (non-empty), else the
    placeholder. -/
def pdfTitle (doc : PdfDoc) : Str :=
  match doc.metaTitle with
  | some t => if t = [] then str "PDF Document" else t
  | none => str "PDF Document"

/-- Result pair of the fallback path as fetch_smart_content returns it
    (news_agent.py line 94). -/
def fallbackPair (doc : HtmlList) : Option Str × Option Str :=
  ((fallbackExtract doc).1, some (fallbackExtract doc).2)

/-- Model of fetch_smart_content (news_agent.py lines 32 to 98). The resp
    argument is none when the GET raises, times out or returns a non-2xx
    status (the outer handler then yields the sentinel); otherwise it
    carries the outcomes of the external effects on the response. -/
def fetch_smart_content (url : Str) (resp : Option Response) :
    Option Str × Option Str :=
  match resp with
  | none => (none, none)
  | some r =>
    if classifyIsPdf url r.contentType then
      match r.pdf with
      | none => (none, none)
      | some doc => (some (pdfTitle doc), some (pdfText doc))
    else
      match r.primary with
      | some pr =>
        if ARTICLE_ACCEPT_THRESHOLD < pr.2.length then (some pr.1, some pr.2)
        else fallbackPair r.html
      | none => fallbackPair r.html

/-- The FetchResult invariant exactly as claim C2 states it: both fields
    present with non-empty text, or both absent. -/
def c2Invariant (r : Option Str × Option Str) : Prop :=
  (∃ t x, r = (some t, some x) ∧ x ≠ []) ∨ r = (none, none)

/-- Model of str.split with a one-character separator. -/
def splitOnCharL (sep : Char) : Str → List Str
  | [] => [[]]
  | c :: rest =>
    if c = sep then [] :: splitOnCharL sep rest
    else consHead c (splitOnCharL sep rest)

/-- Helper of the str.replace model: the fuel argument, initially the text
    length, only bounds the recursion depth and never runs out, because each
    step consumes at least one character. Replace each non-overlapping
    occurrence of a non-empty pattern, left to right. An empty pattern
    leaves the text unchanged (the source never calls replace with an empty
    pattern). -/
def replaceFuel (pat repl : Str) : Nat → Str → Str
  | 0, l => l
  | _ + 1, [] => []
  | fuel + 1, c :: rest =>
    if pat ≠ [] ∧ pat.isPrefixOf (c :: rest) then
      repl ++ replaceFuel pat repl fuel ((c :: rest).drop pat.length)
    else
      c :: replaceFuel pat repl fuel rest

/-- Model of str.replace. -/
def replaceAllL (pat repl l : Str) : Str := replaceFuel pat repl l.length l

/-- URL-derived fallback name (news_agent.py line 150): the text after the
    last slash of the URL, with every .pdf and every .html substring
    removed. -/
def urlDerivedName (url : Str) : Str :=
  replaceAllL (str ".html") []
    (replaceAllL (str ".pdf") [] ((splitOnCharL '/' url).getLastD []))

/-- Title fixup of fetch_mode (news_agent.py lines 148 to 150): replace an
    absent, empty or placeholder PDF Document title by the URL-derived
    name. -/
def effectiveTitle (title : Option Str) (url : Str) : Str :=
  match title with
  | none => urlDerivedName url
  | some t =>
    if t = [] ∨ t = str "PDF Document" then urlDerivedName url else t

/-- Model of clean_filename (news_agent.py lines 27 to 30): keep only
    alphanumeric characters, spaces, periods and underscores, strip trailing
    whitespace, replace spaces by underscores, truncate to 60 characters.
    Alphanumeric is modelled on the ASCII range. -/
def clean_filename (title : Str) : Str :=
  let safe_title :=
    rstripL (title.filter (fun c => c.isAlphanum || c = ' ' || c = '.' || c = '_'))
  (replaceAllL (str " ") (str "_") safe_title).take 60

/-- The filename derivation exactly as claim C9 words it, with the space
    replacement written as a character map. -/
def cleanFilenameSpec (title : Str) : Str :=
  let kept := title.filter (fun c => c.isAlphanum || c = ' ' || c = '.' || c = '_')
  let trimmed := rstripL kept
  (trimmed.map (fun c => if c = ' ' then '_' else c)).take 60

/-- Outcome of fetch_mode on one URL (news_agent.py lines 141 to 178):
    skipped before summarization because the text is short or absent,
    skipped because the note file already exists, skipped because
    summarization failed, or saved. Only skippedShort happens before the
    summarization call, and only saved writes a note file. -/
inductive UrlAction where
  | skippedShort : UrlAction
  | skippedExists : Str → UrlAction
  | skippedNoSummary : Str → UrlAction
  | saved : Str → Str → UrlAction
deriving DecidableEq

/-- Model of the per-URL body of fetch_mode (news_agent.py lines 141 to
    178): fetched is the fetch_smart_content result, noteExists models the
    filesystem existence check on the derived note name, and summarize
    models the summarization collaborator (none is its failure signal). -/
def process_url (url : Str) (fetched : Option Str × Option Str)
    (noteExists : Str → Bool) (summarize : Str → Option Str) : UrlAction :=
  match fetched.2 with
  | none => .skippedShort
  | some text =>
    if text.length < MIN_CONTENT_LENGTH then .skippedShort
    else
      let safe_title := clean_filename (effectiveTitle fetched.1 url)
      if noteExists safe_title then .skippedExists safe_title
      else
        match summarize text with
        | none => .skippedNoSummary safe_title
        | some s => .saved safe_title s

/-- Concrete response: an HTML page whose body parses to an empty document,
    with the primary extractor raising. -/
def respEmptyHtml : Response := ⟨str "text/html", none, .nil, none⟩

/-- Concrete response: an HTML page whose title element has no string child
    and whose remaining text is plain. -/
def respBareTitle : Response :=
  ⟨str "text/html", none, .ofList [el "title" [], tx "Some body text"], none⟩

/-- Concrete response: a single-page PDF reading Hello, with no metadata
    title. -/
def respHelloPdf : Response :=
  ⟨str "application/pdf", some ⟨[str "Hello"], none⟩, .nil, none⟩

/-- Concrete response used by the claim C1 witness: an article page where
    the primary extractor succeeds with 301 characters of text. -/
def respLongArticle : Response :=
  ⟨str "text/html", none, .nil, some (str "T", List.replicate 301 'a')⟩

theorem containsSub_iff (pat l : Str) : containsSub pat l = true ↔ pat <:+: l := by
  induction l with
  | nil => simp [containsSub, List.isEmpty_iff]
  | cons c rest ih =>
    simp [containsSub, List.infix_cons_iff, ih, List.isPrefixOf_iff_prefix]

theorem stripL_space_cons (l : Str) : stripL (' ' :: l) = stripL l := by
  simp [stripL, List.dropWhile_cons, pyIsSpace]

theorem consHead_shape (a : Char) (xs : List Str) : ∃ f fs, consHead a xs = f :: fs := by
  cases xs <;> exact ⟨_, _, rfl⟩

theorem splitTwoSp_shape (l : Str) : ∃ f fs, splitTwoSp l = f :: fs := by
  rw [splitTwoSp.eq_def]
  split
  · exact ⟨_, _, rfl⟩
  · exact ⟨_, _, rfl⟩
  · exact consHead_shape _ _

theorem splitTwoSp_cons_cons (c₁ c₂ : Char) (rest : Str) (h : ¬(c₁ = ' ' ∧ c₂ = ' ')) :
    splitTwoSp (c₁ :: c₂ :: rest) = consHead c₁ (splitTwoSp (c₂ :: rest)) := by
  rw [splitTwoSp.eq_def]
  split
  · simp_all
  · simp_all
  · rename_i c' rest' hcond heq
    injection heq with e1 e2
    subst e1; subst e2
    rfl

theorem splitRuns_cons_cons (c₁ c₂ : Char) (rest : Str) (h : ¬(c₁ = ' ' ∧ c₂ = ' ')) :
    splitRuns (c₁ :: c₂ :: rest) = consHead c₁ (splitRuns (c₂ :: rest)) := by
  rw [splitRuns.eq_def]
  split
  · simp_all
  · simp_all
  · rename_i c' rest' hcond heq
    injection heq with e1 e2
    subst e1; subst e2
    rfl

theorem splitRunsSkip_cons_of_ne (c : Char) (rest : Str) (h : ¬c = ' ') :
    splitRunsSkip (c :: rest) = consHead c (splitRuns rest) := by
  rw [splitRunsSkip.eq_def]
  split
  · simp_all
  · simp_all
  · rename_i c' rest' hcond heq
    injection heq with e1 e2
    subst e1; subst e2
    rfl

theorem splitRuns_cons_of_ne (c : Char) (rest : Str) (h : ¬c = ' ') :
    splitRuns (c :: rest) = consHead c (splitRuns rest) := by
  match rest with
  | [] =>
    rw [splitRuns.eq_def]
    split
    · simp_all
    · simp_all
    · rename_i c' rest' hcond heq
      injection heq with e1 e2
      subst e1; subst e2
      rfl
  | c₂ :: rest₂ => exact splitRuns_cons_cons c c₂ rest₂ (fun hc => h hc.1)

theorem splitRunsSkip_eq (l : Str) :
    splitRunsSkip l = splitRuns (l.dropWhile (fun c => c = ' ')) := by
  induction l with
  | nil => rfl
  | cons c rest ih =>
    by_cases h : c = ' '
    · subst h
      rw [List.dropWhile_cons_of_pos (by simp)]
      rw [← ih]
      rfl
    · rw [List.dropWhile_cons_of_neg (by simp [h])]
      rw [splitRunsSkip_cons_of_ne c rest h, splitRuns_cons_of_ne c rest h]

theorem tidy_cons_congr (f : Str) (X Y : List Str) (h : tidyFrags X = tidyFrags Y) :
    tidyFrags (f :: X) = tidyFrags (f :: Y) := by
  unfold tidyFrags at h ⊢
  simp only [List.map_cons, List.filter_cons]
  rw [h]

theorem tidy_nil_cons (X : List Str) : tidyFrags ([] :: X) = tidyFrags X := by
  simp [tidyFrags, List.filter_cons, show stripL [] = [] from rfl]

theorem splitTwoSp_singleton (c : Char) : splitTwoSp [c] = [[c]] := by
  rw [splitTwoSp.eq_def]
  split
  · simp_all
  · simp_all
  · rename_i c' rest' hcond heq
    injection heq with e1 e2
    subst e1; subst e2
    rfl

theorem splitRuns_singleton (c : Char) : splitRuns [c] = [[c]] := by
  rw [splitRuns.eq_def]
  split
  · simp_all
  · simp_all
  · rename_i c' rest' hcond heq
    injection heq with e1 e2
    subst e1; subst e2
    rfl

theorem tidy_consHead_space (xs : List Str) :
    tidyFrags (consHead ' ' xs) = tidyFrags xs := by
  cases xs with
  | nil => decide
  | cons f fs =>
    simp only [consHead, tidyFrags, List.map_cons, List.filter_cons, stripL_space_cons]

theorem tidy_splitTwoSp_space (l : Str) :
    tidyFrags (splitTwoSp (' ' :: l)) = tidyFrags (splitTwoSp l) := by
  induction l with
  | nil => decide
  | cons c rest ih =>
    by_cases hc : c = ' '
    · subst hc
      have e : splitTwoSp (' ' :: ' ' :: rest) = [] :: splitTwoSp rest := rfl
      rw [e, tidy_nil_cons, ← ih]
    · rw [splitTwoSp_cons_cons ' ' c rest (fun hx => hc hx.2), tidy_consHead_space]

theorem tidy_splitTwoSp_dropWhile (l : Str) :
    tidyFrags (splitTwoSp (l.dropWhile (fun c => c = ' '))) = tidyFrags (splitTwoSp l) := by
  induction l with
  | nil => rfl
  | cons c rest ih =>
    by_cases hc : c = ' '
    · subst hc
      rw [List.dropWhile_cons_of_pos (by simp), ih, ← tidy_splitTwoSp_space]
    · rw [List.dropWhile_cons_of_neg (by simp [hc])]

theorem splits_rel (l : Str) :
    ∃ f X Y, splitTwoSp l = f :: X ∧ splitRuns l = f :: Y ∧ tidyFrags X = tidyFrags Y := by
  match l with
  | [] => exact ⟨[], [], [], rfl, rfl, rfl⟩
  | [c] =>
    rw [splitTwoSp_singleton, splitRuns_singleton]
    exact ⟨[c], [], [], rfl, rfl, rfl⟩
  | c₁ :: c₂ :: rest =>
    by_cases h : c₁ = ' ' ∧ c₂ = ' '
    · obtain ⟨h₁, h₂⟩ := h
      subst h₁; subst h₂
      refine ⟨[], splitTwoSp rest, splitRunsSkip rest, rfl, rfl, ?_⟩
      rw [splitRunsSkip_eq, ← tidy_splitTwoSp_dropWhile rest]
      obtain ⟨f, X, Y, e1, e2, e3⟩ := splits_rel (rest.dropWhile (fun c => c = ' '))
      rw [e1, e2]
      exact tidy_cons_congr f X Y e3
    · rw [splitTwoSp_cons_cons c₁ c₂ rest h, splitRuns_cons_cons c₁ c₂ rest h]
      obtain ⟨f, X, Y, e1, e2, e3⟩ := splits_rel (c₂ :: rest)
      rw [e1, e2]
      exact ⟨c₁ :: f, X, Y, rfl, rfl, e3⟩
termination_by l.length
decreasing_by
  · have := (List.dropWhile_sublist (l := rest) (fun c => c = ' ')).length_le
    simp only [List.length_cons]
    omega
  · simp [List.length_cons]

theorem tidy_split_eq (l : Str) :
    tidyFrags (splitTwoSp l) = tidyFrags (splitRuns l) := by
  obtain ⟨f, X, Y, e1, e2, e3⟩ := splits_rel l
  rw [e1, e2]
  exact tidy_cons_congr f X Y e3

theorem filter_flatMap_tidy (ls : List Str) (g : Str → List Str) :
    (ls.flatMap (fun l => (g l).map stripL)).filter (fun c => !c.isEmpty) =
      ls.flatMap (fun l => tidyFrags (g l)) := by
  induction ls with
  | nil => rfl
  | cons a rest ih => simp [List.flatMap_cons, List.filter_append, ih, tidyFrags]

theorem flatMap_tidy_congr (ls : List Str) :
    ls.flatMap (fun line => ((splitTwoSp line).map stripL).filter (fun c => !c.isEmpty)) =
      ls.flatMap (fun line => ((splitRuns line).map stripL).filter (fun c => !c.isEmpty)) := by
  induction ls with
  | nil => rfl
  | cons a r ih =>
    simp only [List.flatMap_cons, ih]
    congr 1
    exact tidy_split_eq a

/-- Claim C7 counterexample: on the input a TAB two-spaces b, the code
    normalization additionally strips each fragment (dropping the TAB), so it
    differs from the normalization exactly as the claim words it. -/
theorem cleanText_normalization_counterexample :
    cleanTextL (str "a\t  b") = str "a\nb" ∧
    cleanTextSpecL (str "a\t  b") = str "a\t\nb" ∧
    cleanTextL (str "a\t  b") ≠ cleanTextSpecL (str "a\t  b") := by decide

/-- Claim C7 (amended): for every input text, the fallback whitespace
    normalization returns exactly the result of splitting the text into
    lines, trimming each line, splitting each trimmed line on runs of two or
    more spaces, trimming each fragment, discarding empty fragments, and
    rejoining the remaining fragments with single newlines. -/
theorem cleanText_normalization_amended (s : Str) :
    cleanTextL s = cleanTextSpecTrimL s := by
  show List.intercalate (str "\n")
      ((((splitlinesL s).map stripL).flatMap (fun line => (splitTwoSp line).map stripL)).filter
        (fun c => !c.isEmpty)) =
    List.intercalate (str "\n")
      ((((splitlinesL s).map stripL).flatMap (fun line => (splitRuns line).map stripL)).filter
        (fun c => !c.isEmpty))
  rw [List.filter_flatMap, List.filter_flatMap, flatMap_tidy_congr]

theorem getText_pruneL (l : HtmlList) :
    getTextL (pruneL l) = visibleTextL l := by
  induction l using visibleTextL.induct with
  | case1 => rfl
  | case2 s rest ih => simp [pruneL, getTextL, visibleTextL, ih]
  | case3 tag cs rest ih1 ih2 =>
    by_cases h : bannedTag tag <;>
      simp [pruneL, getTextL, visibleTextL, h, ih1, ih2]


theorem pdfText_flatten (doc : PdfDoc) :
    pdfText doc = (doc.pages.map (fun p => p ++ str "\n")).flatten := by
  have gen : ∀ (ps : List Str) (acc : Str),
      ps.foldl (fun a p => a ++ p ++ str "\n") acc =
        acc ++ (ps.map (fun p => p ++ str "\n")).flatten := by
    intro ps
    induction ps with
    | nil => intro acc; simp
    | cons p rest ih =>
      intro acc
      rw [List.foldl_cons, ih]
      simp [List.append_assoc]
  simpa [pdfText] using gen doc.pages []

/-- Claim C1: for every HTML-classified input, a primary extractor result of
    strictly more than 300 characters is returned verbatim as the final
    pair, while a raising primary extractor or one yielding at most 300
    characters (including zero) is discarded in favour of the complete
    fallback pair, never a mix of fields from both. -/
theorem fetch_html_cascade (url : Str) (r : Response) (t x : Str)
    (hc : classifyIsPdf url r.contentType = false) :
    (r.primary = some (t, x) → ARTICLE_ACCEPT_THRESHOLD < x.length →
        fetch_smart_content url (some r) = (some t, some x)) ∧
    (r.primary = none →
        fetch_smart_content url (some r) = fallbackPair r.html) ∧
    (r.primary = some (t, x) → x.length ≤ ARTICLE_ACCEPT_THRESHOLD →
        fetch_smart_content url (some r) = fallbackPair r.html) := by
  refine ⟨?_, ?_, ?_⟩
  · intro hp hl
    simp [fetch_smart_content, hc, hp, hl]
  · intro hp
    simp [fetch_smart_content, hc, hp]
  · intro hp hl
    simp [fetch_smart_content, hc, hp, Nat.not_lt.mpr hl]

set_option maxRecDepth 4000 in
/-- Witness for claim C1: a concrete HTML response whose primary extractor
    yields 301 characters is returned verbatim. -/
theorem fetch_html_cascade_witness :
    fetch_smart_content (str "http://example.com/page") (some respLongArticle) =
      (some (str "T"), some (List.replicate 301 'a')) :=
  (fetch_html_cascade (str "http://example.com/page") respLongArticle (str "T")
      (List.replicate 301 'a') (by decide)).1 rfl (by decide)

/-- Claim C3: fetch_smart_content returns the sentinel exactly when the
    transport GET fails (modelled by an absent response, covering network
    errors, timeouts and non-2xx statuses) or the payload is classified PDF
    and fails to parse; the bad-host case yields the sentinel, and the model
    is a total function, so no exception reaches the caller. -/
theorem fetch_sentinel_iff :
    (∀ (url : Str) (resp : Option Response),
        fetch_smart_content url resp = (none, none) ↔
          (resp = none ∨ ∃ r, resp = some r ∧
            classifyIsPdf url r.contentType = true ∧ r.pdf = none)) ∧
    fetch_smart_content (str "http://bad-host-that-fails") none = (none, none) := by
  constructor
  · intro url resp
    cases resp with
    | none => simp [fetch_smart_content]
    | some r =>
      by_cases hc : classifyIsPdf url r.contentType = true
      · cases hpdf : r.pdf with
        | none => simp [fetch_smart_content, hc, hpdf]
        | some doc => simp [fetch_smart_content, hc, hpdf]
      · cases hp : r.primary with
        | none => simp [fetch_smart_content, hc, hp, fallbackPair]
        | some pr =>
          by_cases hl : ARTICLE_ACCEPT_THRESHOLD < pr.2.length
          · simp [fetch_smart_content, hc, hp, hl]
          · simp [fetch_smart_content, hc, hp, hl, fallbackPair]
  · rfl

/-- Claim C4: a PDF-classified input whose document parses yields the page
    texts concatenated in order, each followed by a newline, and the
    metadata title when present and non-empty, else the placeholder PDF
    Document; the HTML extractors contribute nothing to this pair; the
    concrete single-page Hello document with no metadata title yields the
    placeholder and the text Hello with a newline. -/
theorem fetch_pdf_path :
    (∀ (url : Str) (r : Response) (doc : PdfDoc),
        classifyIsPdf url r.contentType = true → r.pdf = some doc →
          fetch_smart_content url (some r) =
            (some (pdfTitle doc), some (pdfText doc))) ∧
    (∀ doc : PdfDoc,
        pdfText doc = (doc.pages.map (fun p => p ++ str "\n")).flatten) ∧
    (∀ (doc : PdfDoc) (t : Str),
        doc.metaTitle = some t → t ≠ [] → pdfTitle doc = t) ∧
    (∀ doc : PdfDoc, doc.metaTitle = none ∨ doc.metaTitle = some [] →
        pdfTitle doc = str "PDF Document") ∧
    fetch_smart_content (str "https://example.com/doc.pdf") (some respHelloPdf) =
      (some (str "PDF Document"), some (str "Hello\n")) := by
  refine ⟨?_, pdfText_flatten, ?_, ?_, by decide⟩
  · intro url r doc hc hpdf
    simp [fetch_smart_content, hc, hpdf]
  · intro doc t hmt hne
    simp [pdfTitle, hmt, hne]
  · intro doc hmt
    rcases hmt with h | h <;> simp [pdfTitle, h]

/-- Witness for claim C4: the PDF branch equality applied to the concrete
    Hello document. -/
theorem fetch_pdf_path_witness :
    fetch_smart_content (str "https://x.test/a.pdf") (some respHelloPdf) =
      (some (str "PDF Document"), some (str "Hello\n")) :=
  ((fetch_pdf_path).1 (str "https://x.test/a.pdf") respHelloPdf
      ⟨[str "Hello"], none⟩ (by decide) rfl).trans (by decide)

/-- Claim C2 counterexample: an empty HTML page yields a present placeholder
    title with empty text, and a page whose title element has no single
    string child yields an absent title with present non-empty text; both
    outputs violate the stated FetchResult invariant. -/
theorem fetch_invariant_counterexample :
    fetch_smart_content (str "http://x.test") (some respEmptyHtml) =
      (some (str "Web_Capture"), some []) ∧
    fetch_smart_content (str "http://x.test/b") (some respBareTitle) =
      (none, some (str "Some body text")) ∧
    ¬ c2Invariant (fetch_smart_content (str "http://x.test") (some respEmptyHtml)) ∧
    ¬ c2Invariant (fetch_smart_content (str "http://x.test/b") (some respBareTitle)) := by
  refine ⟨by decide, by decide, ?_, ?_⟩
  · rw [show fetch_smart_content (str "http://x.test") (some respEmptyHtml) =
        (some (str "Web_Capture"), some []) from by decide]
    simp [c2Invariant]
  · rw [show fetch_smart_content (str "http://x.test/b") (some respBareTitle) =
        (none, some (str "Some body text")) from by decide]
    simp [c2Invariant]

/-- Claim C2 (amended): for every URL, absent text forces an absent title
    (the sentinel); when text is present it may be empty (the fallback
    always returns structurally, possibly with empty text), and the title is
    then present except on the HTML fallback path when the first remaining
    title element lacks a single string child, in which case the title is
    absent. -/
theorem fetch_result_shape_amended (url : Str) (resp : Option Response) :
    ((fetch_smart_content url resp).2 = none →
        (fetch_smart_content url resp).1 = none) ∧
    ((fetch_smart_content url resp).1 = none →
        (fetch_smart_content url resp).2 = none ∨
          ∃ r, resp = some r ∧ classifyIsPdf url r.contentType = false ∧
            fetch_smart_content url resp = fallbackPair r.html ∧
            (fallbackExtract r.html).1 = none) := by
  cases resp with
  | none => simp [fetch_smart_content]
  | some r =>
    by_cases hc : classifyIsPdf url r.contentType = true
    · cases hpdf : r.pdf with
      | none => simp [fetch_smart_content, hc, hpdf]
      | some doc => simp [fetch_smart_content, hc, hpdf]
    · have hc' : classifyIsPdf url r.contentType = false := by
        simpa using hc
      have he : ∃ e : Option Str × Option Str,
          fetch_smart_content url (some r) = fallbackPair r.html ∨
          ∃ t x, fetch_smart_content url (some r) = (some t, some x) := by
        exact ⟨(none, none), by
          cases hp : r.primary with
          | none => exact Or.inl (by simp [fetch_smart_content, hc', hp])
          | some pr =>
            by_cases hl : ARTICLE_ACCEPT_THRESHOLD < pr.2.length
            · exact Or.inr ⟨pr.1, pr.2, by simp [fetch_smart_content, hc', hp, hl]⟩
            · exact Or.inl (by simp [fetch_smart_content, hc', hp, hl])⟩
      obtain ⟨-, he⟩ := he
      rcases he with he | ⟨t, x, he⟩
      · rw [he]
        refine ⟨?_, ?_⟩
        · intro h2
          exact absurd h2 (by simp [fallbackPair])
        · intro h1
          exact Or.inr ⟨r, rfl, hc', he ▸ rfl, by simpa [fallbackPair] using h1⟩
      · rw [he]
        exact ⟨by simp, by simp⟩

/-- Witness for claim C2 (amended): the sentinel case at a concrete absent
    response. -/
theorem fetch_result_shape_amended_witness :
    (fetch_smart_content (str "http://w.test") none).1 = none :=
  (fetch_result_shape_amended (str "http://w.test") none).1 rfl

/-- Claim C5 counterexample: a URL whose path ends in .pdf but that carries
    a query string is classified HTML by the code, while the claim (reading
    the URL path) demands PDF. -/
theorem classifier_counterexample :
    classifyIsPdf (str "https://example.com/report.pdf?utm=1")
      (str "text/html") = false ∧
    (str ".pdf").isSuffixOf
      (toLowerL (specUrlPath (str "https://example.com/report.pdf?utm=1"))) = true ∧
    classifierSpecC5 (str "https://example.com/report.pdf?utm=1")
      (str "text/html") = true := by
  exact ⟨by decide, by decide, by decide⟩

/-- Claim C5 (amended): the classifier is a pure total function returning
    PDF exactly when the lowercased URL string (rather than only its path)
    ends with .pdf, or the lowercased content-type header contains
    application/pdf. -/
theorem classifier_amended (url ct : Str) :
    classifyIsPdf url ct = true ↔
      (str ".pdf") <:+ toLowerL url ∨ (str "application/pdf") <:+: toLowerL ct := by
  simp [classifyIsPdf, List.isSuffixOf_iff_suffix, containsSub_iff]

/-- Claim C6 counterexample: on the example page the claimed result text
    omits the title text T, but get_text keeps it, because the title tag is
    not among the removed tags. -/
theorem fallback_example_counterexample :
    fallbackExtract exampleHtmlDoc ≠ (some (str "T"), str "Real content here.") ∧
    fallbackExtract exampleHtmlDoc = (some (str "T"), str "TReal content here.") := by
  exact ⟨by decide, by decide⟩

/-- Claim C6 (amended): the fallback extractor text is exactly the
    normalization of the text outside every script, style, nav, footer and
    header subtree, so no text of those subtrees reaches the output; the
    title is the string of the first remaining title element when one exists
    (absent when that element has no single string child), else the
    placeholder Web_Capture; on the example page the result is the title T
    with text TReal content here. (the title text participates in the
    extracted text), with no X present. -/
theorem fallback_extractor_amended :
    (∀ doc : HtmlList, getTextL (pruneL doc) = visibleTextL doc) ∧
    (∀ doc : HtmlList, (fallbackExtract doc).2 = cleanTextL (visibleTextL doc)) ∧
    (∀ doc : HtmlList, findTitleL (pruneL doc) = none →
        (fallbackExtract doc).1 = some (str "Web_Capture")) ∧
    (∀ (doc : HtmlList) (n : Html), findTitleL (pruneL doc) = some n →
        (fallbackExtract doc).1 = tagString n) ∧
    fallbackExtract exampleHtmlDoc = (some (str "T"), str "TReal content here.") ∧
    containsSub (str "X") (str "TReal content here.") = false := by
  refine ⟨getText_pruneL, ?_, ?_, ?_, by decide, by decide⟩
  · intro doc
    simp [fallbackExtract, getText_pruneL]
  · intro doc h
    simp [fallbackExtract, h]
  · intro doc n h
    simp [fallbackExtract, h]

/-- Witness for claim C6 (amended): the empty document has no title element
    and receives the placeholder title. -/
theorem fallback_extractor_amended_witness :
    (fallbackExtract HtmlList.nil).1 = some (str "Web_Capture") :=
  (fallback_extractor_amended).2.2.1 HtmlList.nil rfl

/-- Claim C8: a URL whose fetched text is absent or shorter than 100
    characters has the outcome skippedShort, regardless of the summarizer
    and of the note state, so it is skipped before any summarization call
    and no note is written; the two length thresholds are distinct named
    constants, with the caller threshold the looser one. -/
theorem process_short_skip :
    (∀ (url : Str) (t : Option Str) (x : Option Str) (ex : Str → Bool)
        (f g : Str → Option Str),
        (x = none ∨ ∃ s, x = some s ∧ s.length < MIN_CONTENT_LENGTH) →
          process_url url (t, x) ex f = UrlAction.skippedShort ∧
          process_url url (t, x) ex f = process_url url (t, x) ex g) ∧
    MIN_CONTENT_LENGTH = 100 ∧ ARTICLE_ACCEPT_THRESHOLD = 300 ∧
      MIN_CONTENT_LENGTH < ARTICLE_ACCEPT_THRESHOLD := by
  refine ⟨?_, rfl, rfl, by decide⟩
  intro url t x ex f g hshort
  rcases hshort with h | ⟨s, hs, hlen⟩
  · subst h
    exact ⟨rfl, rfl⟩
  · subst hs
    constructor <;> simp [process_url, hlen]

/-- Witness for claim C8: a concrete absent-text fetch result is skipped. -/
theorem process_short_skip_witness :
    process_url (str "http://u.test") (none, none) (fun _ => false)
        (fun _ => none) = UrlAction.skippedShort :=
  ((process_short_skip).1 (str "http://u.test") none none (fun _ => false)
      (fun _ => none) (fun _ => none) (Or.inl rfl)).1

theorem replaceAllL_space (l : Str) :
    replaceAllL (str " ") (str "_") l =
      l.map (fun c => if c = ' ' then '_' else c) := by
  induction l with
  | nil => rfl
  | cons c rest ih =>
    show replaceFuel (str " ") (str "_") (rest.length + 1) (c :: rest) = _
    rw [replaceFuel]
    by_cases hc : c = ' '
    · subst hc
      rw [if_pos ⟨by decide, by simp [str, List.isPrefixOf]⟩]
      simpa [str] using ih
    · rw [if_neg ?_]
      · simpa [hc] using congrArg (c :: ·) ih
      · rintro ⟨-, hpre⟩
        simp [str, List.isPrefixOf, hc] at hpre
        exact hc hpre.symm

/-- Claim C9: clean_filename computes exactly the claimed derivation (keep
    alphanumeric characters, spaces, periods and underscores, trim trailing
    whitespace, underscore spaces, truncate to 60), and on the concrete
    title it yields an underscored string of only allowed characters within
    the 60-character bound. -/
theorem clean_filename_correct :
    (∀ t : Str, clean_filename t = cleanFilenameSpec t) ∧
    clean_filename (str "A/B: Report?? 2024") = str "AB_Report_2024" ∧
    (clean_filename (str "A/B: Report?? 2024")).length ≤ 60 ∧
    (clean_filename (str "A/B: Report?? 2024")).all
      (fun c => c.isAlphanum || c = '.' || c = '_') = true := by
  have heq : ∀ t : Str, clean_filename t = cleanFilenameSpec t := by
    intro t
    simp [clean_filename, cleanFilenameSpec, replaceAllL_space]
  refine ⟨heq, ?_, ?_, ?_⟩
  · rw [heq]; decide
  · rw [heq]; decide
  · rw [heq]; decide

set_option maxRecDepth 4000 in
/-- Claim C10 counterexample: when the last URL segment itself reduces to
    the placeholder, the placeholder reaches clean_filename: the effective
    title equals PDF Document and the per-URL outcome carries the filename
    cleaned from PDF Document. -/
theorem title_fixup_counterexample :
    effectiveTitle (some (str "PDF Document"))
      (str "https://h.test/PDF Document.pdf") = str "PDF Document" ∧
    process_url (str "https://h.test/PDF Document.pdf")
        (some (str "PDF Document"), some (List.replicate 150 'a'))
        (fun _ => false) (fun _ => none) =
      UrlAction.skippedNoSummary (clean_filename (str "PDF Document")) := by
  exact ⟨by decide, by decide⟩

/-- Claim C10 (amended): fetch_mode replaces an absent, empty or placeholder
    PDF Document title by the URL-derived name (the text after the last
    slash with every .pdf and .html substring removed) and keeps any other
    title; consequently the placeholder reaches clean_filename only when the
    URL-derived name itself equals the placeholder. -/
theorem title_fixup_amended :
    (∀ url : Str, effectiveTitle none url = urlDerivedName url) ∧
    (∀ url : Str, effectiveTitle (some []) url = urlDerivedName url) ∧
    (∀ url : Str,
        effectiveTitle (some (str "PDF Document")) url = urlDerivedName url) ∧
    (∀ (url t : Str), t ≠ [] → t ≠ str "PDF Document" →
        effectiveTitle (some t) url = t) ∧
    (∀ (url : Str) (title : Option Str),
        effectiveTitle title url = str "PDF Document" →
          urlDerivedName url = str "PDF Document") := by
  refine ⟨fun url => rfl, ?_, ?_, ?_, ?_⟩
  · intro url
    simp [effectiveTitle]
  · intro url
    simp [effectiveTitle]
  · intro url t h1 h2
    simp [effectiveTitle, h1, h2]
  · intro url title h
    cases title with
    | none => simpa [effectiveTitle] using h
    | some t =>
      by_cases hc : t = [] ∨ t = str "PDF Document"
      · rw [effectiveTitle] at h
        rwa [if_pos hc] at h
      · rw [effectiveTitle] at h
        rw [if_neg hc] at h
        exact absurd (h ▸ Or.inr rfl) hc

/-- Witness for claim C10 (amended): a plain non-placeholder title is kept
    unchanged. -/
theorem title_fixup_amended_witness :
    effectiveTitle (some (str "Nice Title")) (str "http://u.test/x") =
      str "Nice Title" :=
  (title_fixup_amended).2.2.2.1 (str "http://u.test/x") (str "Nice Title")
    (by decide) (by decide)
